import Mathlib

/-!
Verification of the eth-indexer core against its specification.

The Go sources are shallowly embedded: exact decimal arithmetic
(shopspring/decimal inside pkg/bigrat) is represented by rationals,
machine integers by Nat/Int, database tables by lists of row structures,
and fallible operations by Except/Option results.  Each embedded
definition mirrors one function of the source tree; the section headers
name the file and lines it comes from.
-/

namespace EthIndexer

/-! ## pkg/bigrat/rat.go — the BigN fluent decimal wrapper

`decimal.Decimal` values are represented by `ℚ`.  The operations used by
the swap handler (`NewBigN`, `Pow`, `Div`, `ToTruncateFloat64`) are
translated one-to-one; division by a power of ten and integer powers are
exact in shopspring decimals, so the rational semantics coincides.  The
final float64 conversion is read back exactly (spec section 6.3: the
engine never relies on floating-point equality). -/

/-- A BigN value: a decimal number together with the embedded error slot
(rat.go line 18). -/
structure BigN where
  num : ℚ
  err : Option String
deriving Repr, DecidableEq

/-- NewBigN (rat.go line 25): wraps an integer-valued input exactly;
`coverToDecimal` cannot fail on `*big.Int` or `int` inputs. -/
def NewBigN (n : ℤ) : BigN := { num := (n : ℚ), err := none }

/-- Pow (rat.go lines 102-116).  Note the source checks only `n < 0`; it
does not propagate `bn.err`. -/
def BigN.pow (bn : BigN) (n : ℤ) : BigN :=
  if n < 0 then { num := 0, err := some "invalid exponent: negative value" }
  else { num := bn.num ^ n.toNat, err := none }

/-- Div (rat.go lines 119-150): propagates the receiver error, errors on a
zero divisor, otherwise divides.  `coverToDecimal` on a `*BigN` argument
reads only its `num` field (rat.go line 271), ignoring the argument's
error slot. -/
def BigN.div (bn : BigN) (n : BigN) : BigN :=
  if bn.err.isSome then { num := 0, err := bn.err }
  else if n.num = 0 then { num := 0, err := some "division by zero" }
  else { num := bn.num / n.num, err := none }

/-- Truncation toward zero of a rational to an integer, the semantics of
`decimal.Decimal.Truncate` at scale 0. -/
def truncToward0 (q : ℚ) : ℤ := q.num.tdiv (q.den : ℤ)

/-- Truncation of a rational to `d` decimal places, toward zero
(`decimal.Decimal.Truncate(d)`). -/
def truncAt (d : ℕ) (q : ℚ) : ℚ := (truncToward0 (q * 10 ^ d) : ℚ) / 10 ^ d

/-- ToTruncateFloat64 (rat.go lines 177-190): returns 0 on a negative
place count, otherwise the value truncated to `d` decimal places (the
float64 conversion is read back exactly). -/
def BigN.toTruncateFloat64 (bn : BigN) (d : ℤ) : ℚ :=
  if d < 0 then 0 else truncAt d.toNat bn.num

/-! ## internal/indexer/handlers/uniswapV2.go — HandleUSDCWETHSwap

Lines 57-68 compute the usd value recorded in the swap_history row:

  usdValue := bigrat.NewBigN(event.Args["amount0In"])
  if event.Args["amount0Out"].Cmp(0) != 0 then usdValue := NewBigN(amount0Out)
  usdValue.Div(NewBigN(10).Pow(usdcToken.Decimals)).ToTruncateFloat64(6)

The two amounts are uint256 event arguments, hence naturals; the token
decimal count is an `int64`. -/

/-- The usd value computed by HandleUSDCWETHSwap for a swap log
(uniswapV2.go lines 57-68). -/
def swapUsdValue (amount0In amount0Out : ℕ) (decimals : ℤ) : ℚ :=
  let usdValue := if amount0Out ≠ 0 then NewBigN amount0Out else NewBigN amount0In
  (usdValue.div ((NewBigN 10).pow decimals)).toTruncateFloat64 6

/-- The usd value as the specification describes it:
`max(args.amount0In, args.amount0Out) / 10^decimals`, truncated to six
decimal places (spec section 4.9 step 3). -/
def swapUsdValueClaim (amount0In amount0Out : ℕ) (decimals : ℤ) : ℚ :=
  truncAt 6 ((max amount0In amount0Out : ℕ) / (10 : ℚ) ^ decimals.toNat)

/-- Truncation toward zero fixes integers. -/
theorem truncToward0_intCast (n : ℤ) : truncToward0 (n : ℚ) = n := by
  simp [truncToward0]

/-- Truncation to any number of decimal places fixes integers. -/
theorem truncAt_intCast (d : ℕ) (n : ℤ) : truncAt d ((n : ℚ)) = n := by
  have hc : ((n : ℚ) * 10 ^ d) = ((n * 10 ^ d : ℤ) : ℚ) := by push_cast; ring
  have hpow : ((10 : ℚ) ^ d) ≠ 0 := by positivity
  rw [truncAt, hc, truncToward0_intCast]
  push_cast
  field_simp

/-- Shared helper: the value HandleUSDCWETHSwap records, in closed form:
the selected amount (amount0Out when nonzero, otherwise amount0In)
divided by `10^decimals`, truncated to six decimal places. -/
theorem swapUsdValue_eq (aIn aOut : ℕ) (dec : ℤ) (hdec : 0 ≤ dec) :
    swapUsdValue aIn aOut dec
      = truncAt 6 ((if aOut ≠ 0 then (aOut : ℚ) else (aIn : ℚ)) / 10 ^ dec.toNat) := by
  have hpow : ((10 : ℚ) ^ dec.toNat) ≠ 0 := by positivity
  unfold swapUsdValue NewBigN BigN.pow BigN.div BigN.toTruncateFloat64
  by_cases h : aOut = 0 <;> simp [h, not_lt.mpr hdec, hpow]

/-- C1: the handler does not take the maximum of the two amounts: when
both are nonzero it uses `amount0Out` even if `amount0In` is larger.
With amount0In = 2000000, amount0Out = 1000000 and 6 token decimals the
recorded value is 1, while the claimed formula gives 2. -/
theorem swapUsdValue_ne_claim :
    swapUsdValue 2000000 1000000 6 ≠ swapUsdValueClaim 2000000 1000000 6 := by
  have hcode : swapUsdValue 2000000 1000000 6 = 1 := by
    rw [swapUsdValue_eq 2000000 1000000 6 (by norm_num)]
    have : ((if (1000000 : ℕ) ≠ 0 then ((1000000 : ℕ) : ℚ) else ((2000000 : ℕ) : ℚ))
        / 10 ^ (6 : ℤ).toNat) = ((1 : ℤ) : ℚ) := by
        rw [show (6 : ℤ).toNat = 6 from rfl]; norm_num
    rw [this, truncAt_intCast]
    norm_num
  have hclaim : swapUsdValueClaim 2000000 1000000 6 = 2 := by
    rw [swapUsdValueClaim]
    have : ((max 2000000 1000000 : ℕ) : ℚ) / (10 : ℚ) ^ (6 : ℤ).toNat = ((2 : ℤ) : ℚ) := by
      rw [show (6 : ℤ).toNat = 6 from rfl]; norm_num
    rw [this, truncAt_intCast]
    norm_num
  rw [hcode, hclaim]
  norm_num

/-- C1 (amended): the recorded usd value equals
`(amount0Out if amount0Out ≠ 0 else amount0In) / 10^decimals`, truncated
to six decimal places, for every nonnegative decimal count; this
coincides with the max formula whenever at least one amount is zero. -/
theorem swapUsdValue_selected_formula (aIn aOut : ℕ) (dec : ℤ) (hdec : 0 ≤ dec) :
    swapUsdValue aIn aOut dec
      = truncAt 6 ((if aOut ≠ 0 then (aOut : ℚ) else (aIn : ℚ)) / 10 ^ dec.toNat) :=
  swapUsdValue_eq aIn aOut dec hdec

/-- C1 (amended, witness): concrete instance with amount0Out = 0. -/
theorem swapUsdValue_selected_formula_witness :
    swapUsdValue 3000000 0 6
      = truncAt 6 ((if (0 : ℕ) ≠ 0 then ((0 : ℕ) : ℚ) else ((3000000 : ℕ) : ℚ))
          / 10 ^ (6 : ℤ).toNat) :=
  swapUsdValue_selected_formula 3000000 0 6 (by norm_num)

/-! ## The relational store

Tables are lists of row records, mirroring the schema of
migrations/20240930_create_tables.up.sql.  `points_history` (lines 34-42
of the migration) carries no uniqueness constraint beyond its SERIAL
primary key; `users` has `address UNIQUE` (line 7).  SERIAL columns start
at 1, modelled by a next-id counter. -/

/-- A users row (migration lines 4-11).  Timestamps are irrelevant to the
claims and omitted. -/
structure UserRow where
  id : ℕ
  address : String
  totalPoints : ℚ
deriving Repr, DecidableEq

/-- A points_history row (migration lines 34-42). -/
structure PointsRow where
  id : ℕ
  token : String
  account : String
  points : ℚ
  description : String
deriving Repr, DecidableEq

/-- A swap_history row (migration lines 22-31); `lastUpdated` is a unix
timestamp in seconds. -/
structure SwapRow where
  id : ℕ
  token : String
  account : String
  transactionHash : String
  usdValue : ℚ
  lastUpdated : ℤ
deriving Repr, DecidableEq

/-- The database state: the three tables the claims touch and the SERIAL
counters (next value, starting at 1). -/
structure DBState where
  users : List UserRow
  pointsHistory : List PointsRow
  swapHistory : List SwapRow
  nextUserId : ℕ
  nextPointsId : ℕ
deriving Repr, DecidableEq

/-! ## internal/repository (ctx-style variant used by service.go)

The repository executes every statement on `r.db`, which NewRepository
sets to the connection pool (`pg.PgxPool`); see the repository interface
and constructor in src/unnamed/part_016 lines 46-60.  `BeginTransaction`
returns a separate `pgx.Tx`; no repository method routes its statement
through that transaction handle, so each statement below commits on its
own (autocommit) and is untouched by a later `tx.Rollback`. -/

/-- CreatePointsHistory (src/unnamed/part_015 lines 324-344): a plain
`INSERT INTO points_history ... RETURNING id, created_at`.  The schema
has no uniqueness constraint on (account, description), so the insert
always succeeds and returns the fresh SERIAL id (at least 1).  The
returned id is echoed into the passed record. -/
def createPointsHistory (s : DBState) (token account : String) (points : ℚ)
    (description : String) : DBState × ℕ :=
  let row : PointsRow :=
    { id := s.nextPointsId, token := token, account := account,
      points := points, description := description }
  ({ s with pointsHistory := s.pointsHistory ++ [row],
            nextPointsId := s.nextPointsId + 1 },
   s.nextPointsId)

/-- UpsertUserPoints (src/internal/repository/user.go lines 60-81):
`INSERT INTO users (address, total_points) VALUES ($1,$2) ON CONFLICT
(address) DO UPDATE SET total_points = users.total_points +
EXCLUDED.total_points`. -/
def upsertUserPoints (s : DBState) (address : String) (point : ℚ) : DBState :=
  if s.users.any (fun u => u.address = address) then
    { s with users := s.users.map (fun u =>
        if u.address = address then { u with totalPoints := u.totalPoints + point } else u) }
  else
    { s with users := s.users ++ [{ id := s.nextUserId, address := address,
                                    totalPoints := point }],
             nextUserId := s.nextUserId + 1 }

/-- Errors surfaced by the repository layer. -/
inductive RepoErr where
  | userNotFound
  | duplicateKey
  | scanNull
  | divisionByZero
  | upsertFailed
deriving Repr, DecidableEq

/-- GetUserByAddress (user.go lines 33-57): select by address, mapping
`pgx.ErrNoRows` to the distinct `model.ErrUserNotFound` sentinel. -/
def getUserByAddress (s : DBState) (address : String) : Except RepoErr UserRow :=
  match s.users.find? (fun u => u.address = address) with
  | some u => .ok u
  | none => .error .userNotFound

/-- CreateUser (user.go lines 13-30): `INSERT INTO users (address) VALUES
($1) RETURNING id, ...`; the `address UNIQUE` constraint turns a second
insert for the same address into a duplicate-key error. -/
def createUser (s : DBState) (address : String) : DBState × Except RepoErr UserRow :=
  if s.users.any (fun u => u.address = address) then
    (s, .error .duplicateKey)
  else
    let u : UserRow := { id := s.nextUserId, address := address, totalPoints := 0 }
    ({ s with users := s.users ++ [u], nextUserId := s.nextUserId + 1 }, .ok u)

/-! ## internal/service/service.go — AccumulateUserPoints (lines 66-113)

The method runs under a single-flight keyed by the account, begins a
transaction `tx`, then calls `s.repo.CreatePointsHistory(ctx, ...)` and
`s.repo.UpsertUserPoints(ctx, ...)` — both of which execute on the pool,
not on `tx`.  If the points-history insert reports id 0 the upsert is
skipped (line 89); on error the closure returns and `tx.Rollback` runs,
which reverts only statements issued through `tx` — there are none, so
the pool writes persist.  `upsertFails` injects a failure of the
UpsertUserPoints statement (e.g. a connection loss between the two
statements). -/

/-- AccumulateUserPoints, returning the resulting durable state and the
call's outcome. -/
def accumulateUserPoints (s : DBState) (token user description : String)
    (point : ℚ) (upsertFails : Bool) : DBState × Except RepoErr Unit :=
  -- BeginTransaction: a fresh pgx.Tx; no statement below targets it.
  let res := createPointsHistory s token user point description
  let s1 := res.1
  let newId := res.2
  if newId = 0 then
    -- conflict branch (service.go line 89): commit the (empty) tx
    (s1, .ok ())
  else if upsertFails then
    -- tx.Rollback(ctx): no statement was issued through tx, so the
    -- insert performed on the pool remains committed.
    (s1, .error .upsertFailed)
  else
    (upsertUserPoints s1 user point, .ok ())

/-- Total points recorded for an address. -/
def totalPointsOf (s : DBState) (address : String) : ℚ :=
  ((s.users.filter (fun u => u.address = address)).map (fun u => u.totalPoints)).sum

/-- A database state in which account 0xu already holds the onboarding
bonus: one points_history row with description onboarding_task and a
users row with total_points 100. -/
def dbWithOnboarding : DBState :=
  { users := [{ id := 1, address := "0xu", totalPoints := 100 }],
    pointsHistory := [{ id := 1, token := "0xpool", account := "0xu",
                        points := 100, description := "onboarding_task" }],
    swapHistory := [],
    nextUserId := 2,
    nextPointsId := 2 }

/-- C2: re-invoking AccumulateUserPoints(token, 0xu, onboarding_task, 100)
for an account that already has an onboarding_task row does NOT leave
total_points unchanged: the plain INSERT succeeds again (the schema has
no (account, description) constraint and the statement has no ON
CONFLICT clause), the returned SERIAL id is 2 ≠ 0, so the conflict
branch of service.go line 89 is not taken and the upsert adds another
100, yielding 200. -/
theorem accumulate_onboarding_not_idempotent :
    (accumulateUserPoints dbWithOnboarding "0xpool" "0xu" "onboarding_task" 100 false).2
        = .ok ()
      ∧ totalPointsOf
          (accumulateUserPoints dbWithOnboarding "0xpool" "0xu" "onboarding_task" 100 false).1
          "0xu" = 200
      ∧ (accumulateUserPoints dbWithOnboarding "0xpool" "0xu" "onboarding_task" 100
          false).1.pointsHistory.length = 2 := by
  refine ⟨rfl, ?_, rfl⟩
  norm_num [totalPointsOf, accumulateUserPoints, createPointsHistory, upsertUserPoints,
    dbWithOnboarding]

/-- C3: the two writes of AccumulateUserPoints are not atomic.  Starting
from the state above, if the UpsertUserPoints statement fails, the call
returns an error but the points_history insert — executed on the pool,
outside the transaction that is rolled back — survives: points_history
gains a row while users is untouched, so the tables change unequally on
failure. -/
theorem accumulate_not_atomic :
    (accumulateUserPoints dbWithOnboarding "0xpool" "0xu" "some_task" 50 true).2
        = .error .upsertFailed
      ∧ (accumulateUserPoints dbWithOnboarding "0xpool" "0xu" "some_task" 50
          true).1.pointsHistory
        ≠ dbWithOnboarding.pointsHistory
      ∧ (accumulateUserPoints dbWithOnboarding "0xpool" "0xu" "some_task" 50 true).1.users
        = dbWithOnboarding.users := by
  refine ⟨rfl, ?_, rfl⟩
  intro h
  have := congrArg List.length h
  simp [accumulateUserPoints, createPointsHistory, dbWithOnboarding] at this

/-! ## internal/service/service.go — GetOrCreateAccount (lines 116-143)

The body passed to `s.group.Do(accountId, ...)` reads the user by
address and, on the `ErrUserNotFound` sentinel, inserts it.  The
single-flight group (golang.org/x/sync/singleflight, spec section 4.7)
guarantees that overlapping calls with the same key run the body once
and all receive its result; that library contract is taken as given
here, the body is translated from the source. -/

/-- The single-flight body of GetOrCreateAccount, also counting the
insert statements it issues. -/
def getOrCreateBody (s : DBState) (address : String) :
    DBState × Except RepoErr UserRow × ℕ :=
  match getUserByAddress s address with
  | .ok user => (s, .ok user, 0)
  | .error .userNotFound =>
    let res := createUser s address
    (res.1, res.2, 1)
  | .error e => (s, .error e, 0)

/-- N overlapping GetOrCreateAccount calls for one address: by the
single-flight contract the body runs once and every caller observes its
result. -/
def concurrentGetOrCreate (n : ℕ) (s : DBState) (address : String) :
    DBState × List (Except RepoErr UserRow) × ℕ :=
  let res := getOrCreateBody s address
  (res.1, List.replicate n res.2.1, res.2.2)

/-- C6: for N concurrent GetOrCreateAccount calls for an address with no
existing user, exactly one insert statement is issued, every caller
receives the same freshly created Account, and no duplicate-key error is
surfaced. -/
theorem concurrent_getOrCreate_single_insert (n : ℕ) (s : DBState) (a : String)
    (habsent : s.users.all (fun u => u.address ≠ a)) :
    (concurrentGetOrCreate n s a).2.2 = 1
      ∧ (concurrentGetOrCreate n s a).2.1
          = List.replicate n
              (.ok { id := s.nextUserId, address := a, totalPoints := 0 })
      ∧ ∀ r ∈ (concurrentGetOrCreate n s a).2.1, r ≠ .error .duplicateKey := by
  have hfind : s.users.find? (fun u => u.address = a) = none := by
    rw [List.find?_eq_none]
    intro u hu
    have := List.all_eq_true.mp habsent u hu
    simpa using this
  have hany : s.users.any (fun u => u.address = a) = false := by
    rw [List.any_eq_false]
    intro u hu
    have := List.all_eq_true.mp habsent u hu
    simpa using this
  refine ⟨?_, ?_, ?_⟩
  · simp [concurrentGetOrCreate, getOrCreateBody, getUserByAddress, hfind, createUser, hany]
  · simp [concurrentGetOrCreate, getOrCreateBody, getUserByAddress, hfind, createUser, hany]
  · intro r hr
    simp [concurrentGetOrCreate, getOrCreateBody, getUserByAddress, hfind, createUser, hany,
      List.mem_replicate] at hr
    rcases hr with ⟨-, rfl⟩
    simp

/-- A fresh, empty database state. -/
def emptyDB : DBState :=
  { users := [], pointsHistory := [], swapHistory := [],
    nextUserId := 1, nextPointsId := 1 }

/-- C6 (witness): three concurrent calls on an empty store create the
user once. -/
theorem concurrent_getOrCreate_single_insert_witness :
    (concurrentGetOrCreate 3 emptyDB "0xu").2.2 = 1
      ∧ (concurrentGetOrCreate 3 emptyDB "0xu").2.1
          = List.replicate 3 (.ok { id := 1, address := "0xu", totalPoints := 0 })
      ∧ ∀ r ∈ (concurrentGetOrCreate 3 emptyDB "0xu").2.1,
          r ≠ .error .duplicateKey :=
  concurrent_getOrCreate_single_insert 3 emptyDB "0xu" (by decide)

/-! ## internal/repository/swap_history.go — GetSwapTotalUsd (lines 36-50)

`SELECT SUM(usd_value) FROM swap_history WHERE account = $1 AND token =
$2` always returns one row; over zero selected rows the SQL aggregate is
NULL.  The scan target is a plain (non-pointer) `float64`, and pgx fails
to scan NULL into it, so the zero-rows case surfaces as a generic
wrapped error. -/

/-- The SQL SUM aggregate over the rows selected for (account, token):
`none` models NULL. -/
def sqlSumUsd (rows : List SwapRow) (account token : String) : Option ℚ :=
  let sel := rows.filter (fun r => r.account = account ∧ r.token = token)
  if sel.isEmpty then none else some ((sel.map (fun r => r.usdValue)).sum)

/-- GetSwapTotalUsd (swap_history.go lines 36-50): scans the aggregate
into a non-nullable float; a NULL aggregate is a scan error. -/
def getSwapTotalUsd (s : DBState) (account token : String) : Except RepoErr ℚ :=
  match sqlSumUsd s.swapHistory account token with
  | none => .error .scanNull
  | some v => .ok v

/-- The service-layer GetSwapTotalUsd (service.go lines 222-224) passes
straight through to the repository. -/
def serviceGetSwapTotalUsd (s : DBState) (account token : String) : Except RepoErr ℚ :=
  getSwapTotalUsd s account token

/-- C10: for a (account, token) pair with no swap_history rows the
service returns an error — the NULL aggregate fails the float scan — and
in particular not a zero total, so the empty case is indistinguishable
from a persistence failure at the service interface. -/
theorem getSwapTotalUsd_empty_is_error (s : DBState) (account token : String)
    (hempty : s.swapHistory.filter (fun r => r.account = account ∧ r.token = token) = []) :
    serviceGetSwapTotalUsd s account token = .error .scanNull
      ∧ ∀ q : ℚ, serviceGetSwapTotalUsd s account token ≠ .ok q := by
  have h : sqlSumUsd s.swapHistory account token = none := by
    unfold sqlSumUsd
    rw [hempty]
    rfl
  constructor
  · simp [serviceGetSwapTotalUsd, getSwapTotalUsd, h]
  · intro q
    simp [serviceGetSwapTotalUsd, getSwapTotalUsd, h]

/-- C10 (witness): the empty store has no rows for the pair. -/
theorem getSwapTotalUsd_empty_is_error_witness :
    serviceGetSwapTotalUsd emptyDB "0xu" "0xpool" = .error .scanNull
      ∧ ∀ q : ℚ, serviceGetSwapTotalUsd emptyDB "0xu" "0xpool" ≠ .ok q :=
  getSwapTotalUsd_empty_is_error emptyDB "0xu" "0xpool" rfl

/-! ## internal/repository/swap_history.go — GetUserSwapSummaryLast7Days
(lines 85-125)

The query filters `last_updated BETWEEN $1 AND $2 AND token = $3` with
`$1 = referenceTime - 7 days` and `$2 = referenceTime` — SQL BETWEEN is
inclusive at BOTH ends — groups by account, computes each group's SUM
and its ratio to the window-wide SUM (the CTE), and orders by the group
total descending.  Timestamps are unix seconds; AddDate(0,0,-7)
subtracts 7 by 86400 seconds. -/

/-- The rows the query selects: the token matches and last_updated lies
in the CLOSED window. -/
def swapWindowRows (rows : List SwapRow) (referenceTime : ℤ) (token : String) :
    List SwapRow :=
  rows.filter (fun r => r.token = token
    ∧ referenceTime - 7 * 86400 ≤ r.lastUpdated ∧ r.lastUpdated ≤ referenceTime)

/-- One result row of the query. -/
structure UserSwapPercentage where
  account : String
  totalUSD : ℚ
  percentage : ℚ
deriving Repr, DecidableEq

/-- The per-account group total (`SUM(usd_value) ... GROUP BY account`). -/
def accountTotal (w : List SwapRow) (a : String) : ℚ :=
  ((w.filter (fun r => r.account = a)).map (fun r => r.usdValue)).sum

/-- One output row for account `a`: its total and its share of the
window-wide sum. -/
def mkSummaryEntry (w : List SwapRow) (sumUsd : ℚ) (a : String) : UserSwapPercentage :=
  { account := a, totalUSD := accountTotal w a, percentage := accountTotal w a / sumUsd }

/-- Ordered insert for `ORDER BY total_usd DESC`. -/
def insertDescUSP (x : UserSwapPercentage) :
    List UserSwapPercentage → List UserSwapPercentage
  | [] => [x]
  | y :: ys => if y.totalUSD < x.totalUSD then x :: y :: ys else y :: insertDescUSP x ys

/-- Insertion sort realising `ORDER BY total_usd DESC`. -/
def sortByTotalDesc : List UserSwapPercentage → List UserSwapPercentage
  | [] => []
  | x :: xs => insertDescUSP x (sortByTotalDesc xs)

/-- GetUserSwapSummaryLast7Days (swap_history.go lines 85-125).  With no
selected rows the grouped query yields zero rows (ok, empty).  With rows
summing to zero the percentage division raises a SQL division-by-zero
error.  Otherwise one row per distinct account, ordered by total
descending. -/
def getUserSwapSummaryLast7Days (s : DBState) (referenceTime : ℤ) (token : String) :
    Except RepoErr (List UserSwapPercentage) :=
  let w := swapWindowRows s.swapHistory referenceTime token
  let sumUsd := (w.map (fun r => r.usdValue)).sum
  if w.isEmpty then .ok []
  else if sumUsd = 0 then .error .divisionByZero
  else .ok (sortByTotalDesc
      (((w.map (fun r => r.account)).dedup).map (mkSummaryEntry w sumUsd)))

/-- The aggregation as the claim words it: identical pipeline, but over
the HALF-OPEN window `(referenceTime − 7d, referenceTime]`. -/
def getUserSwapSummaryLast7DaysSpec (s : DBState) (referenceTime : ℤ) (token : String) :
    Except RepoErr (List UserSwapPercentage) :=
  let w := s.swapHistory.filter (fun r => r.token = token
    ∧ referenceTime - 7 * 86400 < r.lastUpdated ∧ r.lastUpdated ≤ referenceTime)
  let sumUsd := (w.map (fun r => r.usdValue)).sum
  if w.isEmpty then .ok []
  else if sumUsd = 0 then .error .divisionByZero
  else .ok (sortByTotalDesc
      (((w.map (fun r => r.account)).dedup).map (mkSummaryEntry w sumUsd)))

/-- A store holding a single swap exactly 7 days before time 604800. -/
def dbBoundaryRow : DBState :=
  { users := [], pointsHistory := [],
    swapHistory := [{ id := 1, token := "0xpool", account := "0xa",
                      transactionHash := "0xt", usdValue := 5, lastUpdated := 0 }],
    nextUserId := 1, nextPointsId := 1 }

/-- C9: the window is closed, not half-open.  A row with last_updated
exactly referenceTime − 7 days is aggregated by the code (BETWEEN is
inclusive), while the claimed half-open window excludes it and would
return the empty summary. -/
theorem swapSummary7d_boundary_differs :
    getUserSwapSummaryLast7Days dbBoundaryRow 604800 "0xpool"
      ≠ getUserSwapSummaryLast7DaysSpec dbBoundaryRow 604800 "0xpool" := by
  have hspec : getUserSwapSummaryLast7DaysSpec dbBoundaryRow 604800 "0xpool" = .ok [] := by
    norm_num [getUserSwapSummaryLast7DaysSpec, dbBoundaryRow, List.filter]
  have hcode : getUserSwapSummaryLast7Days dbBoundaryRow 604800 "0xpool"
      = .ok [{ account := "0xa", totalUSD := 5, percentage := 1 }] := by
    norm_num [getUserSwapSummaryLast7Days, swapWindowRows, dbBoundaryRow, List.filter,
      mkSummaryEntry, accountTotal, sortByTotalDesc, insertDescUSP, List.dedup]
  rw [hspec, hcode]
  simp

/-- Ordered insert permutes: inserting is consing up to permutation. -/
theorem insertDescUSP_perm (x : UserSwapPercentage) :
    ∀ l : List UserSwapPercentage, (insertDescUSP x l).Perm (x :: l)
  | [] => by simp [insertDescUSP]
  | y :: ys => by
    by_cases hlt : y.totalUSD < x.totalUSD
    · simp [insertDescUSP, hlt]
    · simp only [insertDescUSP, if_neg hlt]
      exact ((insertDescUSP_perm x ys).cons y).trans (List.Perm.swap x y ys)

/-- Ordered insert preserves the descending-totals invariant. -/
theorem pairwise_insertDescUSP (x : UserSwapPercentage) :
    ∀ l : List UserSwapPercentage,
      l.Pairwise (fun a b => b.totalUSD ≤ a.totalUSD) →
      (insertDescUSP x l).Pairwise (fun a b => b.totalUSD ≤ a.totalUSD)
  | [], _ => by simp [insertDescUSP]
  | y :: ys, h => by
    rw [List.pairwise_cons] at h
    obtain ⟨hy, hys⟩ := h
    by_cases hlt : y.totalUSD < x.totalUSD
    · simp only [insertDescUSP, if_pos hlt]
      refine List.Pairwise.cons ?_ (List.Pairwise.cons hy hys)
      intro b hb
      rcases List.mem_cons.mp hb with rfl | hb2
      · exact le_of_lt hlt
      · exact le_trans (hy b hb2) (le_of_lt hlt)
    · simp only [insertDescUSP, if_neg hlt]
      refine List.Pairwise.cons ?_ (pairwise_insertDescUSP x ys hys)
      intro b hb
      have hmem : b ∈ x :: ys := (insertDescUSP_perm x ys).mem_iff.mp hb
      rcases List.mem_cons.mp hmem with rfl | hb2
      · exact not_lt.mp hlt
      · exact hy b hb2

/-- The sort is a permutation of its input. -/
theorem sortByTotalDesc_perm : ∀ l : List UserSwapPercentage, (sortByTotalDesc l).Perm l
  | [] => List.Perm.refl []
  | x :: xs => (insertDescUSP_perm x (sortByTotalDesc xs)).trans
      ((sortByTotalDesc_perm xs).cons x)

/-- The sort output is descending in totalUSD. -/
theorem sortByTotalDesc_sorted :
    ∀ l : List UserSwapPercentage,
      (sortByTotalDesc l).Pairwise (fun a b => b.totalUSD ≤ a.totalUSD)
  | [] => List.Pairwise.nil
  | x :: xs => pairwise_insertDescUSP x _ (sortByTotalDesc_sorted xs)

/-- C9 (amended): GetUserSwapSummaryLast7Days aggregates exactly the
swap_history rows with the given token whose last_updated lies in the
CLOSED window [referenceTime − 7d, referenceTime] (SQL BETWEEN is
inclusive at both ends, so a row at exactly referenceTime − 7d is
included).  When no rows fall in the window it returns the empty
sequence without error; when the window's sum is nonzero it returns one
entry per distinct account carrying that account's window total and its
share of the window-wide sum, ordered by total descending. -/
theorem swapSummary7d_closed_window (s : DBState) (ref : ℤ) (token : String) :
    (swapWindowRows s.swapHistory ref token = [] →
        getUserSwapSummaryLast7Days s ref token = .ok [])
    ∧ (((swapWindowRows s.swapHistory ref token).map (fun r => r.usdValue)).sum ≠ 0 →
        ∃ out, getUserSwapSummaryLast7Days s ref token = .ok out
          ∧ (∀ e, e ∈ out ↔ ∃ a,
              (∃ r ∈ swapWindowRows s.swapHistory ref token, r.account = a)
              ∧ e = mkSummaryEntry (swapWindowRows s.swapHistory ref token)
                  (((swapWindowRows s.swapHistory ref token).map (fun r => r.usdValue)).sum) a)
          ∧ out.Pairwise (fun a b => b.totalUSD ≤ a.totalUSD)) := by
  constructor
  · intro hw
    simp only [getUserSwapSummaryLast7Days, hw]
    rfl
  · intro hsum
    have hne : ¬ (swapWindowRows s.swapHistory ref token).isEmpty = true := by
      intro hempty
      apply hsum
      rw [List.isEmpty_iff.mp hempty]
      rfl
    refine ⟨sortByTotalDesc
        ((((swapWindowRows s.swapHistory ref token).map (fun r => r.account)).dedup).map
          (mkSummaryEntry (swapWindowRows s.swapHistory ref token)
            (((swapWindowRows s.swapHistory ref token).map (fun r => r.usdValue)).sum))),
      ?_, ?_, sortByTotalDesc_sorted _⟩
    · simp only [getUserSwapSummaryLast7Days]
      rw [if_neg hne, if_neg hsum]
    · intro e
      rw [(sortByTotalDesc_perm _).mem_iff, List.mem_map]
      constructor
      · rintro ⟨a, ha, rfl⟩
        rw [List.mem_dedup, List.mem_map] at ha
        obtain ⟨r, hr, rfl⟩ := ha
        exact ⟨r.account, ⟨r, hr, rfl⟩, rfl⟩
      · rintro ⟨a, ⟨r, hr, rfl⟩, rfl⟩
        refine ⟨r.account, ?_, rfl⟩
        rw [List.mem_dedup, List.mem_map]
        exact ⟨r, hr, rfl⟩

/-- C9 (amended, witness): the empty store yields the empty summary, and
the boundary-row store (one swap exactly 7 days old, usd 5) yields a
summary with the properties above. -/
theorem swapSummary7d_closed_window_witness :
    (getUserSwapSummaryLast7Days emptyDB 0 "0xpool" = .ok [])
    ∧ ∃ out, getUserSwapSummaryLast7Days dbBoundaryRow 604800 "0xpool" = .ok out
        ∧ (∀ e, e ∈ out ↔ ∃ a,
            (∃ r ∈ swapWindowRows dbBoundaryRow.swapHistory 604800 "0xpool", r.account = a)
            ∧ e = mkSummaryEntry (swapWindowRows dbBoundaryRow.swapHistory 604800 "0xpool")
                (((swapWindowRows dbBoundaryRow.swapHistory 604800 "0xpool").map
                  (fun r => r.usdValue)).sum) a)
        ∧ out.Pairwise (fun a b => b.totalUSD ≤ a.totalUSD) := by
  constructor
  · exact (swapSummary7d_closed_window emptyDB 0 "0xpool").1 rfl
  · refine (swapSummary7d_closed_window dbBoundaryRow 604800 "0xpool").2 ?_
    norm_num [swapWindowRows, dbBoundaryRow, List.filter]

/-! ## pkg/ethindexa (src/unnamed/part_013) — decoder and log processor

Topics and addresses are 256-bit and 160-bit words, represented as
naturals; byte strings rendered by `common.Hash.Hex()` are lowercase
fixed-width hex with a 0x prefix.  The non-indexed decode
(`abi.UnpackIntoMap`, a go-ethereum library call) is an oracle
parameter: it either yields the name-value pairs unpacked from the data
blob or fails. -/

/-- An EVM log as the processor sees it (go-ethereum `types.Log`). -/
structure LogM where
  address : ℕ
  blockNumber : ℕ
  topics : List ℕ
  data : List ℕ
deriving Repr, DecidableEq

/-- The ABI parameter types that extractEventArgs distinguishes
(part_013 lines 520-527). -/
inductive ParamType where
  | address
  | uint256
  | other (typeName : String)
deriving Repr, DecidableEq

/-- One declared event parameter. -/
structure Param where
  name : String
  type : ParamType
  indexed : Bool
deriving Repr, DecidableEq

/-- A decoded argument value: a 20-byte address (`common.HexToAddress`),
an arbitrary-precision integer (`big.Int.SetBytes`), or a raw hex string
(`common.Hash.Hex`). -/
inductive AbiValue where
  | addr (a : ℕ)
  | int (n : ℕ)
  | hex (s : String)
deriving Repr, DecidableEq

/-- One lowercase hex digit. -/
def hexDigitChar (n : ℕ) : Char :=
  if n < 10 then Char.ofNat (48 + n) else Char.ofNat (87 + n)

/-- Fixed-width big-endian lowercase hex digits of a natural. -/
def hexDigits : ℕ → ℕ → List Char
  | 0, _ => []
  | w + 1, v => hexDigits w (v / 16) ++ [hexDigitChar (v % 16)]

/-- A 0x-prefixed fixed-width lowercase hex rendering, the form
`common.Hash.Hex()` produces for 32-byte words (width 64). -/
def hexFixed (width : ℕ) (v : ℕ) : String :=
  "0x" ++ String.mk (hexDigits width v)

/-- Decoding of a single indexed topic by declared type (part_013 lines
520-527): address types keep the word's low 20 bytes
(`common.HexToAddress` of the 32-byte hex), uint256 the whole word
(`SetBytes`), anything else the raw 32-byte hex string. -/
def decodeTopic : ParamType → ℕ → AbiValue
  | .address, t => .addr (t % 2 ^ 160)
  | .uint256, t => .int t
  | .other _, t => .hex (hexFixed 64 t)

/-- The indexed-parameter loop of extractEventArgs (part_013 lines
514-530): walks the declared inputs with a topic index starting at 1,
consuming one topic per indexed parameter and failing when the index
reaches the end of the topic list. -/
def decodeIndexedParams : List Param → ℕ → List ℕ → Except String (List (String × AbiValue))
  | [], _, _ => .ok []
  | p :: ps, i, topics =>
    if p.indexed then
      match topics[i]? with
      | none => .error "not enough topics to unpack indexed parameters"
      | some t =>
        match decodeIndexedParams ps (i + 1) topics with
        | .error e => .error e
        | .ok rest => .ok ((p.name, decodeTopic p.type t) :: rest)
    else
      decodeIndexedParams ps i topics

/-- extractEventArgs (part_013 lines 501-533): unpack the non-indexed
data blob (library oracle), then fold the indexed topics in. -/
def extractEventArgs (inputs : List Param)
    (unpackData : List ℕ → Option (List (String × AbiValue))) (log : LogM) :
    Except String (List (String × AbiValue)) :=
  match unpackData log.data with
  | none => .error "error unpacking event data"
  | some base =>
    match decodeIndexedParams inputs 1 log.topics with
    | .error e => .error e
    | .ok indexedArgs => .ok (base ++ indexedArgs)

/-- An event configuration as the processor consults it. -/
structure EventConfigM where
  contractName : String
  contractAddress : ℕ
  inputs : List Param
  startBlock : ℕ
  eventName : String
  hasHandler : Bool
deriving Repr, DecidableEq

/-- A handler task as enqueued by the processor. -/
structure HandlerTaskM where
  network : String
  blockNumber : ℕ
  contractName : String
  eventName : String
  args : List (String × AbiValue)
deriving Repr, DecidableEq

/-- The per-candidate-config body of the processor loop (part_013 lines
392-459), in source order: skip when the handler is unset, when the
address differs, when the block number is below the start block, when
the decode fails, and when the block body is missing from the task's
block map; otherwise produce the handler task. -/
def configTask (unpackData : EventConfigM → List ℕ → Option (List (String × AbiValue)))
    (network : String) (blocks : List ℕ) (log : LogM) (cfg : EventConfigM) :
    Option HandlerTaskM :=
  if cfg.hasHandler = false then none
  else if log.address ≠ cfg.contractAddress then none
  else if log.address = cfg.contractAddress ∧ log.blockNumber < cfg.startBlock then none
  else
    match extractEventArgs cfg.inputs (unpackData cfg) log with
    | .error _ => none
    | .ok args =>
      if log.blockNumber ∈ blocks then
        some { network := network, blockNumber := log.blockNumber,
               contractName := cfg.contractName, eventName := cfg.eventName,
               args := args }
      else none

/-- Processing of one log (part_013 lines 381-461): a log without topics
is skipped; otherwise every config registered under (network, topic0) is
tried. -/
def processLog (events : String → ℕ → List EventConfigM)
    (unpackData : EventConfigM → List ℕ → Option (List (String × AbiValue)))
    (network : String) (blocks : List ℕ) (log : LogM) : List HandlerTaskM :=
  match log.topics with
  | [] => []
  | topic0 :: _ => (events network topic0).filterMap (configTask unpackData network blocks log)

/-- Processing of an EventsTask's logs in order. -/
def processLogs (events : String → ℕ → List EventConfigM)
    (unpackData : EventConfigM → List ℕ → Option (List (String × AbiValue)))
    (network : String) (blocks : List ℕ) (logs : List LogM) : List HandlerTaskM :=
  logs.flatMap (processLog events unpackData network blocks)

/-- Shared helper: exactly when one candidate config yields a task. -/
theorem configTask_eq_some_iff (unpackData : EventConfigM → List ℕ →
      Option (List (String × AbiValue)))
    (network : String) (blocks : List ℕ) (log : LogM) (cfg : EventConfigM)
    (task : HandlerTaskM) :
    configTask unpackData network blocks log cfg = some task ↔
      cfg.hasHandler = true
      ∧ log.address = cfg.contractAddress
      ∧ cfg.startBlock ≤ log.blockNumber
      ∧ log.blockNumber ∈ blocks
      ∧ ∃ args, extractEventArgs cfg.inputs (unpackData cfg) log = .ok args
          ∧ task = { network := network, blockNumber := log.blockNumber,
                     contractName := cfg.contractName, eventName := cfg.eventName,
                     args := args } := by
  unfold configTask
  by_cases h1 : cfg.hasHandler = false
  · simp [h1]
  · rw [if_neg h1]
    have h1t : cfg.hasHandler = true := Bool.not_eq_false cfg.hasHandler |>.mp h1
    by_cases h2 : log.address = cfg.contractAddress
    · rw [if_neg (by simpa using h2)]
      by_cases h3 : log.blockNumber < cfg.startBlock
      · rw [if_pos ⟨h2, h3⟩]
        simp [h1t, h2, not_le.mpr h3]
      · rw [if_neg (by tauto)]
        cases hE : extractEventArgs cfg.inputs (unpackData cfg) log with
        | error e =>
          simp [hE]
        | ok args =>
          by_cases h5 : log.blockNumber ∈ blocks
          · simp [hE, h5, h1t, h2, not_lt.mp h3]
            constructor
            · rintro rfl; exact rfl
            · rintro rfl; exact rfl
          · simp [hE, h5]
    · rw [if_pos (by simpa using h2)]
      simp [h2]

/-- C7: a HandlerTask is enqueued for a log and a candidate config if
and only if the log has at least one topic, the config is registered
under (network, topic0), the config has a handler, the log's address
equals the config's contract address, the block number is not below the
config's start block, the log decodes without error, and the block body
for the log's block number is present in the task's block map. -/
theorem processLog_task_iff (events : String → ℕ → List EventConfigM)
    (unpackData : EventConfigM → List ℕ → Option (List (String × AbiValue)))
    (network : String) (blocks : List ℕ) (log : LogM) (task : HandlerTaskM) :
    task ∈ processLog events unpackData network blocks log ↔
      ∃ topic0 rest cfg args,
        log.topics = topic0 :: rest
        ∧ cfg ∈ events network topic0
        ∧ cfg.hasHandler = true
        ∧ log.address = cfg.contractAddress
        ∧ cfg.startBlock ≤ log.blockNumber
        ∧ extractEventArgs cfg.inputs (unpackData cfg) log = .ok args
        ∧ log.blockNumber ∈ blocks
        ∧ task = { network := network, blockNumber := log.blockNumber,
                   contractName := cfg.contractName, eventName := cfg.eventName,
                   args := args } := by
  cases htop : log.topics with
  | nil =>
    simp [processLog, htop]
  | cons topic0 rest =>
    rw [processLog]
    rw [htop]
    rw [List.mem_filterMap]
    constructor
    · rintro ⟨cfg, hcfg, hsome⟩
      rw [configTask_eq_some_iff] at hsome
      obtain ⟨hh, haddr, hsb, hblk, args, hE, htask⟩ := hsome
      exact ⟨topic0, rest, cfg, args, rfl, hcfg, hh, haddr, hsb, hE, hblk, htask⟩
    · rintro ⟨t0, r0, cfg, args, heq, hcfg, hh, haddr, hsb, hE, hblk, htask⟩
      injection heq with h1 h2
      subst h1
      subst h2
      refine ⟨cfg, hcfg, ?_⟩
      rw [configTask_eq_some_iff]
      exact ⟨hh, haddr, hsb, hblk, args, hE, htask⟩

/-- Shared helper: with enough topics, the indexed-parameter loop pairs
the indexed inputs, in declaration order, with consecutive topics
starting at index `i`. -/
theorem decodeIndexedParams_ok (topics : List ℕ) :
    ∀ (inputs : List Param) (i : ℕ),
      i + (inputs.filter (fun p => p.indexed)).length ≤ topics.length →
      decodeIndexedParams inputs i topics
        = .ok ((inputs.filter (fun p => p.indexed)).zipWith
            (fun p t => (p.name, decodeTopic p.type t)) (topics.drop i))
  | [], i, _ => by simp [decodeIndexedParams]
  | p :: ps, i, h => by
    by_cases hp : p.indexed
    · have hfilter : (p :: ps).filter (fun q => q.indexed)
          = p :: ps.filter (fun q => q.indexed) := by
        simp [List.filter_cons, hp]
      rw [hfilter] at h ⊢
      have hi : i < topics.length := by
        simp only [List.length_cons] at h
        omega
      have hget : topics[i]? = some (topics.get ⟨i, hi⟩) := by
        rw [List.getElem?_eq_getElem hi]
        rfl
      have hrec := decodeIndexedParams_ok topics ps (i + 1) (by
        simp only [List.length_cons] at h
        omega)
      have hdrop : topics.drop i = topics.get ⟨i, hi⟩ :: topics.drop (i + 1) := by
        rw [List.drop_eq_getElem_cons hi]
        rfl
      rw [decodeIndexedParams, if_pos hp, hget, hrec, hdrop]
      rfl
    · have hfilter : (p :: ps).filter (fun q => q.indexed)
          = ps.filter (fun q => q.indexed) := by
        simp [List.filter_cons, hp]
      rw [hfilter] at h ⊢
      rw [decodeIndexedParams, if_neg hp]
      exact decodeIndexedParams_ok topics ps i h

/-- Shared helper: with at least one indexed input and too few topics,
the indexed-parameter loop fails. -/
theorem decodeIndexedParams_error (topics : List ℕ) :
    ∀ (inputs : List Param) (i : ℕ),
      1 ≤ (inputs.filter (fun p => p.indexed)).length →
      topics.length < i + (inputs.filter (fun p => p.indexed)).length →
      ∃ e, decodeIndexedParams inputs i topics = .error e
  | [], i, hk, _ => by simp at hk
  | p :: ps, i, hk, hlen => by
    by_cases hp : p.indexed
    · have hfilter : (p :: ps).filter (fun q => q.indexed)
          = p :: ps.filter (fun q => q.indexed) := by
        simp [List.filter_cons, hp]
      rw [hfilter] at hlen
      by_cases hi : i < topics.length
      · have hget : topics[i]? = some (topics.get ⟨i, hi⟩) := by
          rw [List.getElem?_eq_getElem hi]
          rfl
        have hk2 : 1 ≤ (ps.filter (fun q => q.indexed)).length := by
          simp only [List.length_cons] at hlen
          omega
        have hlen2 : topics.length < (i + 1) + (ps.filter (fun q => q.indexed)).length := by
          simp only [List.length_cons] at hlen
          omega
        obtain ⟨e, he⟩ := decodeIndexedParams_error topics ps (i + 1) hk2 hlen2
        refine ⟨e, ?_⟩
        rw [decodeIndexedParams, if_pos hp, hget, he]
      · have hget : topics[i]? = none := by
          rw [List.getElem?_eq_none]
          omega
        refine ⟨"not enough topics to unpack indexed parameters", ?_⟩
        rw [decodeIndexedParams, if_pos hp, hget]
    · have hfilter : (p :: ps).filter (fun q => q.indexed)
          = ps.filter (fun q => q.indexed) := by
        simp [List.filter_cons, hp]
      rw [hfilter] at hk hlen
      obtain ⟨e, he⟩ := decodeIndexedParams_error topics ps i hk hlen
      refine ⟨e, ?_⟩
      rw [decodeIndexedParams, if_neg hp]
      exact he

/-- C8: when the data blob unpacks, decoding pairs each indexed
parameter with its topic — address types keep the canonical 20-byte
address (the word's low 160 bits, rendered as lowercase hex), uint256
types the full arbitrary-precision word, any other type the raw 32-byte
lowercase topic hex (the three cases of `decodeTopic`) — provided
topics 1..n cover every indexed parameter; with fewer available topics
than indexed parameters decoding fails with an error, and an erroring
log contributes no handler task while the batch processing advances to
the remaining logs. -/
theorem extractEventArgs_decoding (inputs : List Param)
    (unpackData : List ℕ → Option (List (String × AbiValue))) (log : LogM)
    (base : List (String × AbiValue))
    (hbase : unpackData log.data = some base) :
    ((inputs.filter (fun p => p.indexed)).length + 1 ≤ log.topics.length →
      extractEventArgs inputs unpackData log
        = .ok (base ++ (inputs.filter (fun p => p.indexed)).zipWith
            (fun p t => (p.name, decodeTopic p.type t)) (log.topics.drop 1)))
    ∧ (1 ≤ (inputs.filter (fun p => p.indexed)).length →
        log.topics.length < 1 + (inputs.filter (fun p => p.indexed)).length →
        ∃ e, extractEventArgs inputs unpackData log = .error e)
    ∧ (∀ (cfg : EventConfigM) (network : String) (blocks : List ℕ) (e : String),
        extractEventArgs cfg.inputs unpackData log = .error e →
        configTask (fun _ => unpackData) network blocks log cfg = none)
    ∧ (∀ (events : String → ℕ → List EventConfigM) (network : String)
          (blocks : List ℕ) (rest : List LogM),
        processLogs events (fun _ => unpackData) network blocks (log :: rest)
          = processLog events (fun _ => unpackData) network blocks log
            ++ processLogs events (fun _ => unpackData) network blocks rest) := by
  refine ⟨?_, ?_, ?_, ?_⟩
  · intro h
    rw [extractEventArgs, hbase,
      decodeIndexedParams_ok log.topics inputs 1 (by omega)]
  · intro hk hlen
    obtain ⟨e, he⟩ := decodeIndexedParams_error log.topics inputs 1 hk (by omega)
    refine ⟨e, ?_⟩
    rw [extractEventArgs, hbase, he]
  · intro cfg network blocks e he
    unfold configTask
    by_cases h1 : cfg.hasHandler = false
    · rw [if_pos h1]
    · rw [if_neg h1]
      by_cases h2 : log.address ≠ cfg.contractAddress
      · rw [if_pos h2]
      · rw [if_neg h2]
        by_cases h3 : log.address = cfg.contractAddress ∧ log.blockNumber < cfg.startBlock
        · rw [if_pos h3]
        · rw [if_neg h3, he]
  · intro events network blocks rest
    rw [processLogs, processLogs, List.flatMap_cons]

/-- Fixtures for the decoding witness: a Swap-like event with two
indexed address parameters, an oracle that unpacks one non-indexed
argument, a log with enough topics and one with too few. -/
def swapLikeInputs : List Param :=
  [{ name := "sender", type := .address, indexed := true },
   { name := "amount0In", type := .uint256, indexed := false },
   { name := "to", type := .address, indexed := true }]

/-- The unpack oracle of the witness: one non-indexed value. -/
def swapLikeUnpack : List ℕ → Option (List (String × AbiValue)) :=
  fun _ => some [("amount0In", .int 7)]

/-- A log carrying topic0 plus one topic per indexed parameter; the
first data topic exceeds 160 bits to exercise the address truncation. -/
def swapLikeLog : LogM :=
  { address := 1234, blockNumber := 100,
    topics := [99, 2 ^ 160 + 5, 77], data := [] }

/-- A log with only one topic beyond topic0: too few for two indexed
parameters. -/
def swapLikeShortLog : LogM :=
  { address := 1234, blockNumber := 100, topics := [99, 11], data := [] }

/-- C8 (witness): on the concrete fixtures the decode succeeds with the
indexed pairing, and the short log fails to decode. -/
theorem extractEventArgs_decoding_witness :
    (extractEventArgs swapLikeInputs swapLikeUnpack swapLikeLog
        = .ok ([("amount0In", .int 7)]
            ++ (swapLikeInputs.filter (fun p => p.indexed)).zipWith
              (fun p t => (p.name, decodeTopic p.type t)) (swapLikeLog.topics.drop 1)))
    ∧ ∃ e, extractEventArgs swapLikeInputs swapLikeUnpack swapLikeShortLog = .error e := by
  constructor
  · exact (extractEventArgs_decoding swapLikeInputs swapLikeUnpack swapLikeLog
      [("amount0In", .int 7)] rfl).1 (by decide)
  · exact (extractEventArgs_decoding swapLikeInputs swapLikeUnpack swapLikeShortLog
      [("amount0In", .int 7)] rfl).2.1 (by decide) (by decide)

/-! ## src/unnamed/part_013 — startBlockFetcher (lines 252-359)

The fetcher walks windows of 37 blocks.  The RPC filter call
(`GetLogsByBlockNumber`, line 299) is the oracle `getLogs`, `none`
modelling a transport failure; the joined concurrent block-body fetches
of a window (lines 311-342) are the oracle `blocksOk`, `false` modelling
a failed `eg.Wait()`.  Either failure executes `break` (lines 302, 341),
leaving the inner loop with the current window unemitted — after which
the outer iteration unconditionally runs
`minStartBlock.SetUint64(endBlock + 1)` (line 353). -/

/-- One emitted EventsTask window: the requested block range and the
logs the filter call returned for it. -/
structure FetchedTask where
  fromBlock : ℕ
  toBlock : ℕ
  logs : List LogM
deriving Repr, DecidableEq

/-- The inner window loop (lines 289-348), with explicit fuel: the Go
loop terminates because `currentBlock` strictly increases towards
`endBlock`, and the outer iteration passes sufficient fuel.  The window
end is `endBlock` when `currentBlock + 37 >= endBlock`, otherwise
`currentBlock + 37` (lines 294-297); on success the window is emitted
and the cursor becomes `processingEndBlock + 1` (line 347). -/
def fetchLoop (getLogs : ℕ → ℕ → Option (List LogM)) (blocksOk : ℕ → ℕ → Bool) :
    ℕ → ℕ → ℕ → List FetchedTask
  | 0, _, _ => []
  | fuel + 1, currentBlock, endBlock =>
    if currentBlock ≤ endBlock then
      let pe := if currentBlock + 37 ≥ endBlock then endBlock else currentBlock + 37
      match getLogs currentBlock pe with
      | none => []
      | some logs =>
        if blocksOk currentBlock pe then
          { fromBlock := currentBlock, toBlock := pe, logs := logs }
            :: fetchLoop getLogs blocksOk fuel (pe + 1) endBlock
        else []
    else []

/-- One iteration of the fetcher's outer loop (lines 276-356): observe
the head, subtract the finality lag (`big.Int` Sub then `Uint64`, whose
value for a negative difference is the absolute value's low bits, hence
`natAbs`), run the window loop from the current minimum start block,
then set the next minimum start block to `endBlock + 1` unconditionally
(line 353).  Returns the emitted tasks and the next minimum start
block. -/
def outerIteration (getLogs : ℕ → ℕ → Option (List LogM)) (blocksOk : ℕ → ℕ → Bool)
    (minStartBlock head finalityLag : ℕ) : List FetchedTask × ℕ :=
  let endBlock := ((head : ℤ) - (finalityLag : ℤ)).natAbs
  (fetchLoop getLogs blocksOk (endBlock + 1 - minStartBlock) minStartBlock endBlock,
   endBlock + 1)

/-- C4: the cursor DOES advance past a failed window.  With the cursor
at 100, a safe head of 300 and a log-filter call that fails on the very
first window 100-137, the iteration emits nothing — and then sets the
next start block to 301, skipping the failed window (and blocks 138-300)
instead of re-attempting it. -/
theorem fetcher_skips_failed_window :
    outerIteration (fun _ _ => none) (fun _ _ => true) 100 300 0 = ([], 301) := by
  rfl

/-- Shared helper: every window the inner loop emits starts at or after
the entry cursor, ends inside the overall range, and carries only logs
inside its own range (given the Chain Client contract that FilterLogs
returns logs of the requested range, spec section 4.1). -/
theorem fetchLoop_range (getLogs : ℕ → ℕ → Option (List LogM))
    (blocksOk : ℕ → ℕ → Bool)
    (hrange : ∀ f t logs, getLogs f t = some logs →
      ∀ l ∈ logs, f ≤ l.blockNumber ∧ l.blockNumber ≤ t) :
    ∀ (fuel cur endB : ℕ), ∀ task ∈ fetchLoop getLogs blocksOk fuel cur endB,
      cur ≤ task.fromBlock ∧ task.fromBlock ≤ task.toBlock ∧ task.toBlock ≤ endB
      ∧ ∀ l ∈ task.logs, task.fromBlock ≤ l.blockNumber ∧ l.blockNumber ≤ task.toBlock
  | 0, cur, endB => by simp [fetchLoop]
  | fuel + 1, cur, endB => by
    intro task htask
    rw [fetchLoop] at htask
    by_cases hle : cur ≤ endB
    · rw [if_pos hle] at htask
      simp only at htask
      cases hlogs : getLogs cur (if cur + 37 ≥ endB then endB else cur + 37) with
      | none => rw [hlogs] at htask; simp at htask
      | some logs =>
        rw [hlogs] at htask
        simp only [] at htask
        by_cases hok : blocksOk cur (if cur + 37 ≥ endB then endB else cur + 37) = true
        · rw [if_pos hok] at htask
          have hpe : cur ≤ (if cur + 37 ≥ endB then endB else cur + 37)
              ∧ (if cur + 37 ≥ endB then endB else cur + 37) ≤ endB := by
            by_cases hc : cur + 37 ≥ endB <;> simp [hc] <;> omega
          rcases List.mem_cons.mp htask with rfl | htail
          · exact ⟨le_refl cur, hpe.1, hpe.2, hrange cur _ logs hlogs⟩
          · have ih := fetchLoop_range getLogs blocksOk hrange fuel
              ((if cur + 37 ≥ endB then endB else cur + 37) + 1) endB task htail
            exact ⟨le_trans (le_trans hpe.1 (Nat.le_succ _)) ih.1, ih.2⟩
        · rw [if_neg hok] at htask
          simp at htask
    · rw [if_neg hle] at htask
      simp at htask

/-- C5: every task emitted by a fetcher iteration respects finality:
its window ends at or below head − finalityLag, and every log it carries
satisfies cursor ≤ log.blockNumber ≤ endBlock of its window; hence no
filter request ever has its upper bound above head − finalityLag. -/
theorem fetcher_respects_finality (getLogs : ℕ → ℕ → Option (List LogM))
    (blocksOk : ℕ → ℕ → Bool) (minStart head lag : ℕ)
    (hlag : lag ≤ head)
    (hrange : ∀ f t logs, getLogs f t = some logs →
      ∀ l ∈ logs, f ≤ l.blockNumber ∧ l.blockNumber ≤ t) :
    ∀ task ∈ (outerIteration getLogs blocksOk minStart head lag).1,
      task.toBlock ≤ head - lag
      ∧ task.fromBlock ≤ task.toBlock
      ∧ ∀ l ∈ task.logs, task.fromBlock ≤ l.blockNumber ∧ l.blockNumber ≤ task.toBlock := by
  intro task htask
  have hend : ((head : ℤ) - (lag : ℤ)).natAbs = head - lag := by omega
  rw [outerIteration] at htask
  simp only at htask
  rw [hend] at htask
  have h := fetchLoop_range getLogs blocksOk hrange (head - lag + 1 - minStart)
    minStart (head - lag) task htask
  exact ⟨h.2.2.1, h.2.1, h.2.2.2⟩

/-- The range-respecting trivial filter oracle used by the witness. -/
def emptyGetLogs : ℕ → ℕ → Option (List LogM) := fun _ _ => some []

/-- C5 (witness): with head 300, lag 200 and cursor 50, the iteration
emits the window 50-87, whose upper bound stays at or below
head − lag = 100. -/
theorem fetcher_respects_finality_witness :
    ({ fromBlock := 50, toBlock := 87, logs := [] } : FetchedTask)
        ∈ (outerIteration emptyGetLogs (fun _ _ => true) 50 300 200).1
      ∧ ({ fromBlock := 50, toBlock := 87, logs := [] } : FetchedTask).toBlock
          ≤ 300 - 200 := by
  refine ⟨by decide, ?_⟩
  refine (fetcher_respects_finality emptyGetLogs (fun _ _ => true) 50 300 200 (by omega)
    ?_ { fromBlock := 50, toBlock := 87, logs := [] } (by decide)).1
  intro f t logs hlogs l hl
  simp only [emptyGetLogs] at hlogs
  injection hlogs with h
  rw [← h] at hl
  simp at hl

end EthIndexer
